import Mathlib

/-! Unix-C-Shell: the command-chain executor `execute_commands`

A shallow embedding of `execute_commands` (UnixCShell/main.cpp, lines 73-183) together
with the part of the POSIX process environment it drives: per-process descriptor tables,
`open`, `dup2`, `close`, `pipe`, `fork`/`wait` and `execvp`.

The executor forks one child per command and waits for it before it looks at the next
command, so a child is embedded as a function that runs to completion on a copy of the
parent's descriptor table and hands back the shared kernel state and its termination,
or is found to block for ever: while a child runs nobody else does (the executor sits in
`wait` and forks the reader of a pipe only afterwards), so a write that does not fit into
a pipe never completes, and a program may wait for an end of file that cannot come.
-/

namespace UnixCShell

/-! ## Data model -/

/-- Modelled from the spec: `command.hpp` is not among the sources. Input mode of a
command (`inherit`, `fromFile`, `fromPipe`), with the enumerator names `main.cpp` uses. -/
inductive istream_mode where
  | term
  | file
  | pipe
  deriving DecidableEq, Repr

/-- Modelled from the spec: `command.hpp` is not among the sources. Output mode of a
command (`inherit`, `toFile` truncate, `toFile` append, `toPipe`), with the enumerator
names `main.cpp` uses. -/
inductive ostream_mode where
  | term
  | file
  | append
  | pipe
  deriving DecidableEq, Repr

/-- Modelled from the spec: `command.hpp` is not among the sources. Chain mode
(`always`, `onSuccess`, `onFail`), with the enumerator names `main.cpp` uses. -/
inductive next_command_mode where
  | always
  | on_success
  | on_fail
  deriving DecidableEq, Repr

/-- Modelled from the spec: `command.hpp` is not among the sources. The command
descriptor, with the member names `execute_commands` reads. -/
structure shell_command where
  cmd : String
  args : List String
  cin_file : String
  cout_file : String
  cin_mode : istream_mode
  cout_mode : ostream_mode
  next_mode : next_command_mode
  deriving DecidableEq, Repr

/-- Byte strings (file contents, pipe buffers, terminal output). -/
abbrev Bytes := List Char

/-! ## The process environment -/

/-- What an open descriptor refers to. A file description carries the path it was opened
on, its access mode and whether `O_APPEND` is set; it is created at offset 0. -/
inductive Target where
  | tty
  | file (path : String) (rd wr app : Bool)
  | pipeRead (id : Nat)
  | pipeWrite (id : Nat)
  deriving DecidableEq, Repr

/-- A path of the file system: a regular file with its content and the caller's read and
write permission, or no file (and whether `O_CREAT` may create one there). -/
inductive Node where
  | regular (data : Bytes) (readable writable : Bool)
  | missing (creatable : Bool)
  deriving DecidableEq, Repr

/-- State shared by all processes: the file system, the pipe buffers (a pipe's id is its
position) and what has been written to the terminal. -/
structure Kernel where
  fs : String → Node
  pipes : List Bytes
  tty : Bytes

/-- Descriptor table of one process: position `fd` holds what descriptor `fd` refers to,
`none` when it is closed. -/
abbrev FdTable := List (Option Target)

/-- The descriptor numbers open in a table, with the positions counted from `base`. -/
def openFdsFrom : Nat → FdTable → List Nat
  | _, [] => []
  | base, none :: t => openFdsFrom (base + 1) t
  | base, some _ :: t => base :: openFdsFrom (base + 1) t

/-- The set of open descriptor numbers of a process. -/
def openFds (t : FdTable) : List Nat := openFdsFrom 0 t

/-- What descriptor `fd` refers to (`none`: not open). -/
def fdGet (t : FdTable) (fd : Nat) : Option Target := t.getD fd none

/-- The lowest descriptor number that is not open. -/
def lowestFree : FdTable → Nat
  | [] => 0
  | none :: _ => 0
  | some _ :: t => lowestFree t + 1

/-- Make descriptor `fd` refer to `v` (`none` closes it). -/
def fdSet : FdTable → Nat → Option Target → FdTable
  | [], 0, v => [v]
  | [], n + 1, v => none :: fdSet [] n v
  | _ :: t, 0, v => v :: t
  | x :: t, n + 1, v => x :: fdSet t n v

def STDIN_FILENO : Nat := 0
def STDOUT_FILENO : Nat := 1
def STDERR_FILENO : Nat := 2

def O_RDONLY : Nat := 0
def O_WRONLY : Nat := 1
def O_RDWR : Nat := 2
def O_CREAT : Nat := 64
def O_TRUNC : Nat := 512
def O_APPEND : Nat := 1024

/-- Whether the bit `bit` is set in `flags`. -/
def hasFlag (flags bit : Nat) : Bool := (flags &&& bit) != 0

/-- Replace the node at `path`. -/
def fsSet (fs : String → Node) (path : String) (n : Node) : String → Node :=
  fun p => if p = path then n else fs p

/-- POSIX `open(path, flags, mode)` in a process with table `t`. The result descriptor is
`none` for the C value -1 (no such file without `O_CREAT`, creation not possible, access
denied); otherwise it is the lowest free descriptor. `O_TRUNC` empties an existing file
opened for writing; `O_CREAT` creates an empty file with the owner bits of `mode`. -/
def sys_open (fs : String → Node) (t : FdTable) (path : String) (flags mode : Nat) :
    (String → Node) × FdTable × Option Nat :=
  let acc := flags % 4
  let wantR := acc == O_RDONLY || acc == O_RDWR
  let wantW := acc == O_WRONLY || acc == O_RDWR
  let descr := Target.file path wantR wantW (hasFlag flags O_APPEND)
  match fs path with
  | Node.regular _ r w =>
    if (wantR && !r) || (wantW && !w) then (fs, t, none)
    else
      let fs1 := if hasFlag flags O_TRUNC && wantW then fsSet fs path (Node.regular [] r w) else fs
      (fs1, fdSet t (lowestFree t) (some descr), some (lowestFree t))
  | Node.missing creatable =>
    if hasFlag flags O_CREAT && creatable then
      (fsSet fs path (Node.regular [] (hasFlag mode 256) (hasFlag mode 128)),
        fdSet t (lowestFree t) (some descr), some (lowestFree t))
    else (fs, t, none)

/-- POSIX `dup2(oldfd, newfd)`: `newfd` now refers to what `oldfd` refers to; nothing
happens when `oldfd` is -1 (`none`) or not open. -/
def dup2 (t : FdTable) (oldfd : Option Nat) (newfd : Nat) : FdTable :=
  match oldfd with
  | none => t
  | some o =>
    match fdGet t o with
    | none => t
    | some tg => fdSet t newfd (some tg)

/-- POSIX `close(fd)`; nothing happens when `fd` is -1 (`none`). -/
def close (t : FdTable) (fd : Option Nat) : FdTable :=
  match fd with
  | none => t
  | some f => fdSet t f none

/-- POSIX `pipe(pipes)` when it succeeds: a new pipe, its read end on the lowest free
descriptor and its write end on the next one. Returns the kernel, the table, `pipes[0]`
and `pipes[1]`. -/
def pipe (k : Kernel) (t : FdTable) : Kernel × FdTable × Nat × Nat :=
  let id := k.pipes.length
  let p0 := lowestFree t
  let t1 := fdSet t p0 (some (Target.pipeRead id))
  let p1 := lowestFree t1
  ({ k with pipes := k.pipes ++ [[]] }, fdSet t1 p1 (some (Target.pipeWrite id)), p0, p1)

/-- Append `o` to the buffer of pipe `id`, as far as the capacity `cap` of a pipe allows. -/
def pipeAppend : List Bytes → Nat → Bytes → Nat → List Bytes
  | [], _, _, _ => []
  | b :: bs, 0, o, cap => (b ++ o).take cap :: bs
  | b :: bs, n + 1, o, cap => b :: pipeAppend bs n o cap

/-- Whether writing `o` through a descriptor referring to `tg` blocks for ever: a write
to a pipe that does not fit into what is left of the pipe's capacity `cap`. Nobody drains
the pipe meanwhile: its reader is forked only after the writer has been waited for. -/
def writeBlocks (cap : Nat) (k : Kernel) (tg : Option Target) (o : Bytes) : Bool :=
  match tg with
  | some (Target.pipeWrite id) => decide (cap < (k.pipes.getD id []).length + o.length)
  | _ => false

/-- A process writes `o` through a descriptor referring to `tg`. A file description
without `O_APPEND` writes from its offset 0 over what the file holds; with `O_APPEND`
it writes at the end. A pipe takes what fits into its capacity `cap`. -/
def writeTarget (cap : Nat) (k : Kernel) (tg : Option Target) (o : Bytes) : Kernel :=
  match tg with
  | none => k
  | some Target.tty => { k with tty := k.tty ++ o }
  | some (Target.file path _ wr app) =>
    if wr then
      match k.fs path with
      | Node.regular data r w =>
        let data1 := if app then data ++ o else o ++ data.drop o.length
        { k with fs := fsSet k.fs path (Node.regular data1 r w) }
      | Node.missing _ => k
    else k
  | some (Target.pipeRead _) => k
  | some (Target.pipeWrite id) => { k with pipes := pipeAppend k.pipes id o cap }

/-- How a process ended. -/
inductive Termination where
  | exited (code : Nat)
  | signaled (sig : Nat)
  deriving DecidableEq, Repr

/-- The value `wait(&status)` stores for a terminated child. -/
def waitStatus : Termination → Nat
  | Termination.exited code => (code % 256) * 256
  | Termination.signaled sig => sig % 128

/-- What a program does once exec'd: the bytes it writes to standard output, how it ends
once all its output is written, and whether it never ends by itself (`hangs`: it loops, or
waits for input that never comes). -/
structure ProgResult where
  out : Bytes
  ending : Termination
  hangs : Bool

/-- An executable: from its argument vector, what it can read on standard input, whether
that input reaches an end of file, and the file system, its result. -/
abbrev Program := List String → Bytes → Bool → (String → Node) → ProgResult

/-- The environment of one call: which names `execvp` resolves, whether the `pipe()` and
`fork()` of loop iteration `i` fail, the terminal input and the capacity of a pipe. -/
structure Env where
  programs : String → Option Program
  pipeFails : Nat → Bool
  forkFails : Nat → Bool
  termIn : Bytes
  pipeCapacity : Nat

/-- What a process can read through a descriptor referring to `tg`. -/
def readTarget (env : Env) (k : Kernel) (tg : Option Target) : Bytes :=
  match tg with
  | none => []
  | some Target.tty => env.termIn
  | some (Target.file path rd _ _) =>
    if rd then
      match k.fs path with
      | Node.regular data _ _ => data
      | Node.missing _ => []
    else []
  | some (Target.pipeRead id) => k.pipes.getD id []
  | some (Target.pipeWrite _) => []

/-- Whether a process reading through a descriptor referring to `tg` reaches an end of
file: on a pipe only when no descriptor of the executor (`parentFds`) or of the reading
child itself (`childFds`) refers to the write end any more. -/
def inputEnds (parentFds childFds : FdTable) (tg : Option Target) : Bool :=
  match tg with
  | some (Target.pipeRead id) =>
    !(decide (some (Target.pipeWrite id) ∈ parentFds) ||
      decide (some (Target.pipeWrite id) ∈ childFds))
  | _ => true

/-! ## The child branch (main.cpp lines 106-155) -/

/-- The idiom `int fd = open(path, flags, mode); dup2(fd, target); close(fd);`. -/
def redirect_file (fs : String → Node) (t : FdTable) (path : String) (flags mode target : Nat) :
    (String → Node) × FdTable :=
  let r := sys_open fs t path flags mode
  let fd := r.2.2
  let t1 := dup2 r.2.1 fd target
  (r.1, close t1 fd)

/-- Lines 116-128: the output redirections to a file, in source order, on the child's
copy of the descriptor table. -/
def child_redirect_out (command : shell_command) (fs : String → Node) (t : FdTable) :
    (String → Node) × FdTable :=
  -- Redirect stdout (append)
  let s1 := if command.cout_mode = ostream_mode.append then
      redirect_file fs t command.cout_file (O_APPEND ||| O_WRONLY) 0 STDOUT_FILENO
    else (fs, t)
  -- Redirect stdout to the file
  if command.cout_mode = ostream_mode.file then
    redirect_file s1.1 s1.2 command.cout_file (O_CREAT ||| O_RDWR) 438 STDOUT_FILENO
  else s1

/-- Lines 116-147: the redirections of the child, in source order, on the child's copy
of the descriptor table. `pipeIn` is the parent's local at the time of the fork,
`pipes0`/`pipes1` the pipe of this iteration. -/
def child_redirect (command : shell_command) (pipeIn pipes0 pipes1 : Nat)
    (fs : String → Node) (t : FdTable) : (String → Node) × FdTable :=
  let s2 := child_redirect_out command fs t
  -- Redirect stdin to the command
  let s3 := if command.cin_mode = istream_mode.file then
      redirect_file s2.1 s2.2 command.cin_file O_RDONLY 0 STDIN_FILENO
    else s2
  -- Piping Input
  let t4 := if command.cin_mode = istream_mode.pipe then
      close (dup2 s3.2 (some pipeIn) STDIN_FILENO) (some pipes0)
    else s3.2
  -- Piping Output
  let t5 := if command.cout_mode = ostream_mode.pipe then
      close (dup2 t4 (some pipes1) STDOUT_FILENO) (some pipes1)
    else t4
  (s3.1, t5)

/-- What a child does: the kernel state it leaves, what its standard streams referred to
when it reached `execvp`, whether it blocks for ever (`blocked`: then `wait` never returns
in the parent), and otherwise how it ends. -/
structure ChildRun where
  kernel : Kernel
  stdin : Option Target
  stdout : Option Target
  ending : Termination
  blocked : Bool

/-- Lines 106-155: the child from the fork to its end. `execvp` runs the program named
`cargs[0]` on the redirected streams; when it returns, the child reports on its standard
error and calls `exit(1)`. The child blocks for ever when the program hangs or a write
of it does not fit into a pipe. `t` is the table the child inherits, the parent's at the
fork. -/
def child (env : Env) (command : shell_command) (pipeIn pipes0 pipes1 : Nat)
    (k : Kernel) (t : FdTable) : ChildRun :=
  let cargs := command.cmd :: command.args
  let s := child_redirect command pipeIn pipes0 pipes1 k.fs t
  let k1 : Kernel := { k with fs := s.1 }
  let cin := fdGet s.2 STDIN_FILENO
  let cout := fdGet s.2 STDOUT_FILENO
  match env.programs command.cmd with
  | some prog =>
    let r := prog cargs (readTarget env k1 cin) (inputEnds t s.2 cin) k1.fs
    { kernel := writeTarget env.pipeCapacity k1 cout r.out, stdin := cin, stdout := cout,
      ending := r.ending, blocked := r.hangs || writeBlocks env.pipeCapacity k1 cout r.out }
  | none =>
    let cerr := fdGet s.2 STDERR_FILENO
    let msg := "osh: Command not found\n".toList
    { kernel := writeTarget env.pipeCapacity k1 cerr msg, stdin := cin, stdout := cout,
      ending := Termination.exited 1, blocked := writeBlocks env.pipeCapacity k1 cerr msg }

/-! ## The loop of `execute_commands` (main.cpp lines 73-183) -/

/-- The executor process between two iterations: the shared kernel state, its own
descriptor table and the locals of `execute_commands`. -/
structure ExecState where
  kernel : Kernel
  fds : FdTable
  previousMode : next_command_mode
  pipeIn : Nat
  pipeOut : Nat
  status : Nat
  child_status : Nat

/-- What the executor did, in order: a pipe allocated for the command at `index`; a
process spawned for it and waited for (`spawned`, with the child's standard streams at
`execvp` and the status `wait` stored); a process spawned for it that blocks for ever, so
that `wait` never returns (`hung`). -/
inductive Event where
  | piped (index : Nat) (id pipes0 pipes1 : Nat)
  | spawned (index : Nat) (command : shell_command) (stdin stdout : Option Target) (status : Nat)
  | hung (index : Nat) (command : shell_command) (stdin stdout : Option Target)
  deriving DecidableEq, Repr

/-- The position in the command sequence an event belongs to. -/
def Event.index : Event → Nat
  | Event.piped i _ _ _ => i
  | Event.spawned i _ _ _ _ => i
  | Event.hung i _ _ _ => i

/-- Result of a call: the events, the state at the end, `some code` when the executor
process itself called `exit(code)`, and whether the executor is left blocked for ever
(`blocked`: in `wait` for a child that never ends, or in a write of its own). -/
structure Run where
  events : List Event
  final : ExecState
  exitCode : Option Nat
  blocked : Bool

/-- Lines 157-181: the parent branch after the fork of `command`. -/
def parent (command : shell_command) (pipes0 pipes1 : Nat) (c : ChildRun) (s : ExecState) :
    ExecState :=
  -- wait(&status)
  let status := waitStatus c.ending
  let pipeIn := pipes0
  let pipeOut := pipes1
  -- If there's an and, return the resulting status
  let a : next_command_mode × Nat :=
    if command.next_mode = next_command_mode.on_success then (command.next_mode, status)
    else (s.previousMode, s.child_status)
  -- If there's an or, return the resulting status
  let b : next_command_mode × Nat :=
    if command.next_mode = next_command_mode.on_fail then (command.next_mode, status)
    else a
  let fds := if command.cout_mode ≠ ostream_mode.term then
      dup2 s.fds (some STDOUT_FILENO) pipeOut
    else s.fds
  { kernel := c.kernel, fds := fds, previousMode := b.1, pipeIn := pipeIn, pipeOut := pipeOut,
    status := status, child_status := b.2 }

/-- Lines 80-182: the loop over the commands from position `i` on. -/
def run_loop (env : Env) : Nat → List shell_command → ExecState → Run
  | _, [], s => { events := [], final := s, exitCode := none, blocked := false }
  | i, command :: rest, s =>
    -- If a condition is met when it shouldn't be, break the current command chain.
    if s.child_status ≠ 0 ∧ s.previousMode = next_command_mode.on_success then
      { events := [], final := s, exitCode := none, blocked := false }
    else if s.child_status = 0 ∧ s.previousMode = next_command_mode.on_fail then
      { events := [], final := s, exitCode := none, blocked := false }
    else if env.pipeFails i then
      let cerr := fdGet s.fds STDERR_FILENO
      let k1 := writeTarget env.pipeCapacity s.kernel cerr "Failed\n".toList
      let stuck := writeBlocks env.pipeCapacity s.kernel cerr "Failed\n".toList
      { events := [], final := { s with kernel := k1 },
        exitCode := if stuck then none else some 1, blocked := stuck }
    else
      let p := pipe s.kernel s.fds
      let s1 : ExecState := { s with kernel := p.1, fds := p.2.1 }
      let pipes0 := p.2.2.1
      let pipes1 := p.2.2.2
      let ev := Event.piped i s.kernel.pipes.length pipes0 pipes1
      if env.forkFails i then
        let cerr := fdGet s1.fds STDERR_FILENO
        let k2 := writeTarget env.pipeCapacity s1.kernel cerr "Fork Failed\n".toList
        let stuck := writeBlocks env.pipeCapacity s1.kernel cerr "Fork Failed\n".toList
        { events := [ev], final := { s1 with kernel := k2 },
          exitCode := if stuck then none else some 1, blocked := stuck }
      else
        let c := child env command s1.pipeIn pipes0 pipes1 s1.kernel s1.fds
        if c.blocked then
          -- wait(&status) never returns
          { events := [ev, Event.hung i command c.stdin c.stdout],
            final := { s1 with kernel := c.kernel }, exitCode := none, blocked := true }
        else
          let s2 := parent command pipes0 pipes1 c s1
          let r := run_loop env (i + 1) rest s2
          { r with events :=
              ev :: Event.spawned i command c.stdin c.stdout (waitStatus c.ending) :: r.events }

/-- Lines 73-78: the locals at entry. -/
def initial (k : Kernel) (fds : FdTable) : ExecState :=
  { kernel := k, fds := fds, previousMode := next_command_mode.always,
    pipeIn := 0, pipeOut := 0, status := 0, child_status := 0 }

/-- The function `execute_commands`, called in a process whose descriptor table is `fds`. -/
def execute_commands (env : Env) (k : Kernel) (fds : FdTable) (shell_commands : List shell_command) :
    Run :=
  run_loop env 0 shell_commands (initial k fds)

/-- The positions of the commands a process was spawned for, in order. -/
def executed : List Event → List Nat
  | [] => []
  | Event.piped _ _ _ _ :: es => executed es
  | Event.spawned i _ _ _ _ :: es => i :: executed es
  | Event.hung i _ _ _ :: es => i :: executed es

/-- The break condition a command's chain mode and wait status raise for what follows. -/
def chainBroken (mode : next_command_mode) (status : Nat) : Bool :=
  (mode == next_command_mode.on_success && status != 0) ||
  (mode == next_command_mode.on_fail && status == 0)

/-- The gate at the head of the loop body (lines 83-90) stops the loop in state `s`. -/
def gateClosed (s : ExecState) : Prop :=
  (s.child_status ≠ 0 ∧ s.previousMode = next_command_mode.on_success) ∨
  (s.child_status = 0 ∧ s.previousMode = next_command_mode.on_fail)

instance (s : ExecState) : Decidable (gateClosed s) := by
  unfold gateClosed
  exact inferInstance

/-- The child forked for `command` in state `s`, once the pipe of the iteration exists. -/
def forked (env : Env) (command : shell_command) (s : ExecState) : ChildRun :=
  let p := pipe s.kernel s.fds
  child env command s.pipeIn p.2.2.1 p.2.2.2 p.1 p.2.1

/-- The executor's state after a whole iteration for `command` from state `s`
(pipe, fork, wait, parent branch), reached when `wait` returns. -/
def iterate (env : Env) (command : shell_command) (s : ExecState) : ExecState :=
  let p := pipe s.kernel s.fds
  parent command p.2.2.1 p.2.2.2 (forked env command s) { s with kernel := p.1, fds := p.2.1 }

/-- The event of the pipe allocated at position `i` in state `s`. -/
def pipedEvent (i : Nat) (s : ExecState) : Event :=
  Event.piped i s.kernel.pipes.length (pipe s.kernel s.fds).2.2.1 (pipe s.kernel s.fds).2.2.2

/-- The event of the process spawned for `command` at position `i` in state `s`. -/
def spawnedEvent (env : Env) (i : Nat) (command : shell_command) (s : ExecState) : Event :=
  Event.spawned i command (forked env command s).stdin (forked env command s).stdout
    (waitStatus (forked env command s).ending)

/-- The event of the process spawned for `command` at position `i` in state `s` when it
blocks for ever. -/
def hungEvent (env : Env) (i : Nat) (command : shell_command) (s : ExecState) : Event :=
  Event.hung i command (forked env command s).stdin (forked env command s).stdout

/-- The state the executor is left in, waiting, when the child of `command` blocks. -/
def waiting (env : Env) (command : shell_command) (s : ExecState) : ExecState :=
  { s with kernel := (forked env command s).kernel, fds := (pipe s.kernel s.fds).2.1 }

/-! ## A concrete environment -/

/-- The arguments after `argv[0]`, separated by blanks. -/
def joinArgs : List String → Bytes
  | [] => []
  | [a] => a.toList
  | a :: b :: rest => a.toList ++ ' ' :: joinArgs (b :: rest)

/-- The program `echo`: its arguments and a newline, exit status 0. -/
def echo_prog : Program := fun args _ _ _ =>
  { out := joinArgs args.tail ++ ['\n'], ending := Termination.exited 0, hangs := false }

/-- The program `cat`: the file named by its first argument (standard input when there
is none, read up to its end of file), exit status 1 when the file cannot be read. -/
def cat_prog : Program := fun args inp ends fs =>
  match args.tail with
  | [] => { out := inp, ending := Termination.exited 0, hangs := !ends }
  | p :: _ =>
    match fs p with
    | Node.regular data true _ => { out := data, ending := Termination.exited 0, hangs := false }
    | _ => { out := [], ending := Termination.exited 1, hangs := false }

/-- The program `true`. -/
def true_prog : Program := fun _ _ _ _ =>
  { out := [], ending := Termination.exited 0, hangs := false }

/-- The program `false`. -/
def false_prog : Program := fun _ _ _ _ =>
  { out := [], ending := Termination.exited 1, hangs := false }

/-- The program `head` as far as `head -c 65537 /dev/zero` goes: 65537 zero bytes, exit
status 0. -/
def head_prog : Program := fun args _ _ _ =>
  match args.tail with
  | ["-c", "65537", "/dev/zero"] =>
    { out := List.replicate 65537 (Char.ofNat 0), ending := Termination.exited 0,
      hangs := false }
  | _ => { out := [], ending := Termination.exited 1, hangs := false }

/-- An environment with `echo`, `cat`, `true`, `false` and `head` on the search path, in
which `pipe()` and `fork()` succeed and a pipe holds 65536 bytes (the Linux default). -/
def demoEnv : Env :=
  { programs := fun name =>
      if name = "echo" then some echo_prog
      else if name = "cat" then some cat_prog
      else if name = "true" then some true_prog
      else if name = "false" then some false_prog
      else if name = "head" then some head_prog
      else none,
    pipeFails := fun _ => false,
    forkFails := fun _ => false,
    termIn := [],
    pipeCapacity := 65536 }

/-- A file system holding `out.txt` with content `data` and nothing else; new files can
be created. -/
def demoFs (data : Bytes) : String → Node :=
  fun p => if p = "out.txt" then Node.regular data true true else Node.missing true

/-- An empty file system in which new files can be created. -/
def emptyFs : String → Node := fun _ => Node.missing true

/-- The descriptor table of a shell started on a terminal. -/
def stdFds : FdTable := [some Target.tty, some Target.tty, some Target.tty]

/-- A command with no redirection. -/
def plain (cmd : String) (args : List String) (next : next_command_mode) : shell_command :=
  { cmd := cmd, args := args, cin_file := "", cout_file := "", cin_mode := istream_mode.term,
    cout_mode := ostream_mode.term, next_mode := next }


/-- The pipe sequence `echo a b | cat | cat`. -/
def pipeline : List shell_command :=
  [{ plain "echo" ["a", "b"] next_command_mode.always with cout_mode := ostream_mode.pipe },
   { plain "cat" [] next_command_mode.always with
      cin_mode := istream_mode.pipe, cout_mode := ostream_mode.pipe },
   { plain "cat" [] next_command_mode.always with cin_mode := istream_mode.pipe }]

/-- The pipe sequence `head -c 65537 /dev/zero | cat`. -/
def floodPipeline : List shell_command :=
  [{ plain "head" ["-c", "65537", "/dev/zero"] next_command_mode.always with
      cout_mode := ostream_mode.pipe },
   { plain "cat" [] next_command_mode.always with cin_mode := istream_mode.pipe }]

/-! ## Descriptor tables -/

theorem run_loop_nil (env : Env) (i : Nat) (s : ExecState) :
    run_loop env i [] s = { events := [], final := s, exitCode := none, blocked := false } := by
  simp [run_loop]

theorem run_loop_closed (env : Env) (i : Nat) (cs : List shell_command) (s : ExecState)
    (h : gateClosed s) :
    run_loop env i cs s = { events := [], final := s, exitCode := none, blocked := false } := by
  cases cs with
  | nil => exact run_loop_nil env i s
  | cons c rest =>
    unfold gateClosed at h
    rw [run_loop]
    rcases h with h | h
    · rw [if_pos h]
    · by_cases h1 : s.child_status ≠ 0 ∧ s.previousMode = next_command_mode.on_success
      · rw [if_pos h1]
      · rw [if_neg h1, if_pos h]

theorem run_loop_pipe_fails (env : Env) (i : Nat) (c : shell_command) (rest : List shell_command)
    (s : ExecState) (h : ¬ gateClosed s) (hp : env.pipeFails i = true) :
    (run_loop env i (c :: rest) s).events = [] ∧
      (run_loop env i (c :: rest) s).final.status = s.status := by
  unfold gateClosed at h
  rw [not_or] at h
  rw [run_loop, if_neg h.1, if_neg h.2, if_pos hp]
  exact ⟨rfl, rfl⟩

theorem run_loop_fork_fails (env : Env) (i : Nat) (c : shell_command) (rest : List shell_command)
    (s : ExecState) (h : ¬ gateClosed s) (hp : env.pipeFails i = false)
    (hf : env.forkFails i = true) :
    (run_loop env i (c :: rest) s).events = [pipedEvent i s] := by
  unfold gateClosed at h
  rw [not_or] at h
  rw [run_loop, if_neg h.1, if_neg h.2]
  simp [hp, hf, pipedEvent]

/-- An iteration whose child blocks for ever: the executor stays in `wait`. -/
theorem run_loop_hung (env : Env) (i : Nat) (c : shell_command) (rest : List shell_command)
    (s : ExecState) (h : ¬ gateClosed s) (hp : env.pipeFails i = false)
    (hf : env.forkFails i = false) (hb : (forked env c s).blocked = true) :
    run_loop env i (c :: rest) s =
      { events := [pipedEvent i s, hungEvent env i c s], final := waiting env c s,
        exitCode := none, blocked := true } := by
  unfold gateClosed at h
  rw [not_or] at h
  have hb1 : (child env c s.pipeIn (pipe s.kernel s.fds).2.2.1 (pipe s.kernel s.fds).2.2.2
      (pipe s.kernel s.fds).1 (pipe s.kernel s.fds).2.1).blocked = true := hb
  rw [run_loop, if_neg h.1, if_neg h.2]
  simp only [hp, hf, hb1, Bool.false_eq_true, if_false, if_true]
  rfl

theorem run_loop_step (env : Env) (i : Nat) (c : shell_command) (rest : List shell_command)
    (s : ExecState) (h : ¬ gateClosed s) (hp : env.pipeFails i = false)
    (hf : env.forkFails i = false) (hb : (forked env c s).blocked = false) :
    run_loop env i (c :: rest) s =
      { run_loop env (i + 1) rest (iterate env c s) with
        events := pipedEvent i s :: spawnedEvent env i c s ::
          (run_loop env (i + 1) rest (iterate env c s)).events } := by
  unfold gateClosed at h
  rw [not_or] at h
  have hb1 : (child env c s.pipeIn (pipe s.kernel s.fds).2.2.1 (pipe s.kernel s.fds).2.2.2
      (pipe s.kernel s.fds).1 (pipe s.kernel s.fds).2.1).blocked = false := hb
  rw [run_loop, if_neg h.1, if_neg h.2]
  simp only [hp, hf, hb1, Bool.false_eq_true, if_false]
  rfl

/-- The ways an iteration can go: no event at all (the gate stops the loop or `pipe()`
fails), a pipe and a failed `fork()`, a child that blocks for ever, or a full iteration
followed by the rest of the loop. -/
theorem run_loop_cases (env : Env) (i : Nat) (c : shell_command) (rest : List shell_command)
    (s : ExecState) :
    (run_loop env i (c :: rest) s).events = [] ∨
    ((run_loop env i (c :: rest) s).events = [pipedEvent i s] ∧ env.forkFails i = true) ∨
    ((run_loop env i (c :: rest) s).events = [pipedEvent i s, hungEvent env i c s] ∧
      (forked env c s).blocked = true) ∨
    (¬ gateClosed s ∧ env.pipeFails i = false ∧ env.forkFails i = false ∧
      run_loop env i (c :: rest) s =
        { run_loop env (i + 1) rest (iterate env c s) with
          events := pipedEvent i s :: spawnedEvent env i c s ::
            (run_loop env (i + 1) rest (iterate env c s)).events }) := by
  by_cases h : gateClosed s
  · left
    rw [run_loop_closed env i (c :: rest) s h]
  · by_cases hp : env.pipeFails i = true
    · exact Or.inl (run_loop_pipe_fails env i c rest s h hp).1
    · have hp1 : env.pipeFails i = false := by simpa using hp
      by_cases hf : env.forkFails i = true
      · exact Or.inr (Or.inl ⟨run_loop_fork_fails env i c rest s h hp1 hf, hf⟩)
      · have hf1 : env.forkFails i = false := by simpa using hf
        by_cases hb : (forked env c s).blocked = true
        · refine Or.inr (Or.inr (Or.inl ⟨?_, hb⟩))
          rw [run_loop_hung env i c rest s h hp1 hf1 hb]
        · have hb1 : (forked env c s).blocked = false := by simpa using hb
          exact Or.inr (Or.inr (Or.inr ⟨h, hp1, hf1, run_loop_step env i c rest s h hp1 hf1 hb1⟩))

theorem pipedEvent_index (i : Nat) (s : ExecState) : (pipedEvent i s).index = i := rfl

theorem spawnedEvent_index (env : Env) (i : Nat) (c : shell_command) (s : ExecState) :
    (spawnedEvent env i c s).index = i := rfl

theorem hungEvent_index (env : Env) (i : Nat) (c : shell_command) (s : ExecState) :
    (hungEvent env i c s).index = i := rfl

/-- Every event of the loop started at position `i` belongs to a position from `i` on. -/
theorem run_loop_index_ge (env : Env) (cs : List shell_command) :
    ∀ (i : Nat) (s : ExecState), ∀ e ∈ (run_loop env i cs s).events, i ≤ e.index := by
  induction cs with
  | nil =>
    intro i s e he
    simp [run_loop_nil] at he
  | cons c rest ih =>
    intro i s e he
    rcases run_loop_cases env i c rest s with h | h | h | h
    · rw [h] at he
      simp at he
    · rw [h.1] at he
      simp only [List.mem_singleton] at he
      rw [he, pipedEvent_index]
    · rw [h.1] at he
      simp only [List.mem_cons, List.mem_singleton, List.mem_nil_iff, or_false] at he
      rcases he with he | he
      · rw [he, pipedEvent_index]
      · rw [he, hungEvent_index]
    · rw [h.2.2.2] at he
      simp only [List.mem_cons] at he
      rcases he with he | he | he
      · rw [he, pipedEvent_index]
      · rw [he, spawnedEvent_index]
      · exact Nat.le_of_succ_le (ih (i + 1) _ e he)

/-- The state fields the gate reads, after an iteration. -/
theorem iterate_gate_fields (env : Env) (c : shell_command) (s : ExecState) :
    (c.next_mode = next_command_mode.always →
      (iterate env c s).previousMode = s.previousMode ∧
      (iterate env c s).child_status = s.child_status) ∧
    (c.next_mode ≠ next_command_mode.always →
      (iterate env c s).previousMode = c.next_mode ∧
      (iterate env c s).child_status = waitStatus (forked env c s).ending) := by
  constructor
  · intro h
    simp [iterate, parent, h]
  · intro h
    cases hm : c.next_mode with
    | always => exact absurd hm h
    | on_success => simp [iterate, parent, hm]
    | on_fail => simp [iterate, parent, hm]

/-- After an iteration that got through the gate, the gate is closed exactly when the
command's chain mode and wait status raise the break condition. -/
theorem gateClosed_iterate (env : Env) (c : shell_command) (s : ExecState) (h : ¬ gateClosed s) :
    gateClosed (iterate env c s) ↔
      chainBroken c.next_mode (waitStatus (forked env c s).ending) = true := by
  have hf := iterate_gate_fields env c s
  cases hm : c.next_mode with
  | always =>
    have h1 := hf.1 hm
    unfold gateClosed at h ⊢
    rw [h1.1, h1.2]
    simp [chainBroken, h]
  | on_success =>
    have h1 := hf.2 (by rw [hm]; decide)
    unfold gateClosed
    rw [h1.1, h1.2, hm]
    simp [chainBroken]
  | on_fail =>
    have h1 := hf.2 (by rw [hm]; decide)
    unfold gateClosed
    rw [h1.1, h1.2, hm]
    simp [chainBroken]


/-- The command recorded in a spawn event is the command at that position. -/
theorem spawned_command_aux (env : Env) (cs : List shell_command) :
    ∀ (i : Nat) (s : ExecState) (j : Nat) (c : shell_command) (a b : Option Target) (st : Nat),
      Event.spawned j c a b st ∈ (run_loop env i cs s).events →
      i ≤ j ∧ cs.get? (j - i) = some c := by
  induction cs with
  | nil =>
    intro i s j c a b st he
    simp [run_loop_nil] at he
  | cons c0 rest ih =>
    intro i s j c a b st he
    rcases run_loop_cases env i c0 rest s with h | h | h | h
    · rw [h] at he
      simp at he
    · rw [h.1] at he
      simp [pipedEvent] at he
    · rw [h.1] at he
      simp [pipedEvent, hungEvent] at he
    · rw [h.2.2.2] at he
      simp only [List.mem_cons] at he
      rcases he with he | he | he
      · simp [pipedEvent] at he
      · simp only [spawnedEvent, Event.spawned.injEq] at he
        refine ⟨Nat.le_of_eq he.1.symm, ?_⟩
        rw [he.1, he.2.1]
        simp
      · have h1 := ih (i + 1) _ j c a b st he
        refine ⟨Nat.le_of_succ_le h1.1, ?_⟩
        have hji : j - i = (j - (i + 1)) + 1 := by omega
        rw [hji]
        simpa using h1.2

/-- Once a command's chain mode and wait status raise the break condition, the loop
produces no event for a later position. -/
theorem break_aux (env : Env) (cs : List shell_command) :
    ∀ (i : Nat) (s : ExecState) (j : Nat) (c : shell_command) (a b : Option Target) (st : Nat),
      Event.spawned j c a b st ∈ (run_loop env i cs s).events →
      chainBroken c.next_mode st = true →
      (∀ e ∈ (run_loop env i cs s).events, e.index ≤ j) ∧
        (run_loop env i cs s).exitCode = none := by
  induction cs with
  | nil =>
    intro i s j c a b st he
    simp [run_loop_nil] at he
  | cons c0 rest ih =>
    intro i s j c a b st he hb
    rcases run_loop_cases env i c0 rest s with h | h | h | h
    · rw [h] at he
      simp at he
    · rw [h.1] at he
      simp [pipedEvent] at he
    · rw [h.1] at he
      simp [pipedEvent, hungEvent] at he
    · have hev := h.2.2.2
      rw [hev] at he ⊢
      simp only [List.mem_cons] at he
      rcases he with he | he | he
      · simp [pipedEvent] at he
      · simp only [spawnedEvent, Event.spawned.injEq] at he
        obtain ⟨hj, hc, -, -, hst⟩ := he
        subst hc hst
        have hclosed : gateClosed (iterate env c s) :=
          (gateClosed_iterate env c s h.1).2 hb
        rw [run_loop_closed env (i + 1) rest _ hclosed]
        refine ⟨?_, rfl⟩
        intro e hmem
        simp only [List.mem_cons, List.mem_nil_iff, or_false] at hmem
        rcases hmem with hmem | hmem
        · rw [hmem, pipedEvent_index, hj]
        · rw [hmem, spawnedEvent_index, hj]
      · have h1 := ih (i + 1) _ j c a b st he hb
        have hge := run_loop_index_ge env rest (i + 1) _ _ he
        simp only [Event.index] at hge
        refine ⟨?_, h1.2⟩
        intro e hmem
        simp only [List.mem_cons] at hmem
        rcases hmem with hmem | hmem | hmem
        · rw [hmem, pipedEvent_index]
          omega
        · rw [hmem, spawnedEvent_index]
          omega
        · exact h1.1 e hmem

/-- C1, chain break rule: if the command at position `i` is executed and either its
chain mode is `on_success` and its child's wait status is non-zero, or its chain mode is
`on_fail` and the wait status is zero, then `execute_commands` produces no event (no pipe
allocated, no process spawned) for any position after `i`. The command recorded for the
process is the one at position `i` of the sequence. -/
theorem chain_break_rule (env : Env) (k : Kernel) (fds : FdTable) (cmds : List shell_command)
    (i : Nat) (c : shell_command) (cin cout : Option Target) (st : Nat)
    (hexec : Event.spawned i c cin cout st ∈ (execute_commands env k fds cmds).events)
    (hbreak : (c.next_mode = next_command_mode.on_success ∧ st ≠ 0) ∨
      (c.next_mode = next_command_mode.on_fail ∧ st = 0)) :
    cmds.get? i = some c ∧
      ∀ e ∈ (execute_commands env k fds cmds).events, e.index ≤ i := by
  unfold execute_commands at hexec ⊢
  have hc := spawned_command_aux env cmds 0 _ i c cin cout st hexec
  have hb : chainBroken c.next_mode st = true := by
    rcases hbreak with h | h
    · simp [chainBroken, h.1, h.2]
    · simp [chainBroken, h.1, h.2]
  exact ⟨by simpa using hc.2, (break_aux env cmds 0 _ i c cin cout st hexec hb).1⟩

/-- C1 at `false && echo x`: `false` exits non-zero under `on_success`, `echo` gets
neither a pipe nor a process. -/
theorem chain_break_rule_witness :
    Event.spawned 0 (plain "false" [] next_command_mode.on_success) (some Target.tty)
        (some Target.tty) 256 ∈
      (execute_commands demoEnv { fs := emptyFs, pipes := [], tty := [] } stdFds
        [plain "false" [] next_command_mode.on_success,
         plain "echo" ["x"] next_command_mode.always]).events ∧
    ∀ e ∈ (execute_commands demoEnv { fs := emptyFs, pipes := [], tty := [] } stdFds
        [plain "false" [] next_command_mode.on_success,
         plain "echo" ["x"] next_command_mode.always]).events, e.index ≤ 0 :=
  ⟨by decide,
   (chain_break_rule demoEnv { fs := emptyFs, pipes := [], tty := [] } stdFds
      [plain "false" [] next_command_mode.on_success,
       plain "echo" ["x"] next_command_mode.always] 0
      (plain "false" [] next_command_mode.on_success) (some Target.tty) (some Target.tty) 256
      (by decide) (Or.inl ⟨rfl, by decide⟩)).2⟩


theorem executed_cons_piped (i id p0 p1 : Nat) (es : List Event) :
    executed (Event.piped i id p0 p1 :: es) = executed es := rfl

theorem executed_cons_spawned (i : Nat) (c : shell_command) (a b : Option Target) (st : Nat)
    (es : List Event) : executed (Event.spawned i c a b st :: es) = i :: executed es := rfl

/-- A full iteration contributes exactly its own position to the executed positions. -/
theorem executed_step (env : Env) (i : Nat) (c : shell_command) (s : ExecState)
    (es : List Event) :
    executed (pipedEvent i s :: spawnedEvent env i c s :: es) = i :: executed es := rfl

theorem executed_hung (env : Env) (i : Nat) (c : shell_command) (s : ExecState) :
    executed [pipedEvent i s, hungEvent env i c s] = [i] := rfl

/-- With the gate open and `pipe()` and `fork()` succeeding, a process is spawned for the
first command of the loop: one that is waited for, or one that blocks for ever. -/
theorem first_runs (env : Env) (i : Nat) (c : shell_command) (rest : List shell_command)
    (s : ExecState) (h : ¬ gateClosed s) (hp : env.pipeFails i = false)
    (hf : env.forkFails i = false) :
    (∃ a b st, Event.spawned i c a b st ∈ (run_loop env i (c :: rest) s).events) ∨
    (∃ a b, Event.hung i c a b ∈ (run_loop env i (c :: rest) s).events) := by
  by_cases hb : (forked env c s).blocked = true
  · right
    rw [run_loop_hung env i c rest s h hp hf hb]
    exact ⟨_, _, List.mem_cons_of_mem _ (List.mem_cons_self _ _)⟩
  · left
    have hb1 : (forked env c s).blocked = false := by simpa using hb
    rw [run_loop_step env i c rest s h hp hf hb1]
    exact ⟨_, _, _, List.mem_cons_of_mem _ (List.mem_cons_self _ _)⟩

/-- When the command at offset `d` from the start of the loop has been executed and waited
for without raising the break condition, a process is spawned for the command after it. -/
theorem proceed_aux (env : Env) (cs : List shell_command) :
    ∀ (i : Nat) (s : ExecState) (d : Nat) (c : shell_command) (a b : Option Target) (st : Nat)
      (next : shell_command),
      Event.spawned (i + d) c a b st ∈ (run_loop env i cs s).events →
      chainBroken c.next_mode st = false →
      cs.get? (d + 1) = some next →
      env.pipeFails (i + d + 1) = false → env.forkFails (i + d + 1) = false →
      (∃ a1 b1 st1, Event.spawned (i + d + 1) next a1 b1 st1 ∈ (run_loop env i cs s).events) ∨
      (∃ a1 b1, Event.hung (i + d + 1) next a1 b1 ∈ (run_loop env i cs s).events) := by
  induction cs with
  | nil =>
    intro i s d c a b st next he
    simp [run_loop_nil] at he
  | cons c0 rest ih =>
    intro i s d c a b st next he hb hnext hp hf
    rcases run_loop_cases env i c0 rest s with h | h | h | h
    · rw [h] at he
      simp at he
    · rw [h.1] at he
      simp [pipedEvent] at he
    · rw [h.1] at he
      simp [pipedEvent, hungEvent] at he
    · have hev := h.2.2.2
      rw [hev] at he ⊢
      simp only [List.mem_cons] at he
      simp only [List.get?_cons_succ] at hnext
      rcases he with he | he | he
      · simp [pipedEvent] at he
      · simp only [spawnedEvent, Event.spawned.injEq] at he
        obtain ⟨hj, hc, -, -, hst⟩ := he
        have hd : d = 0 := by omega
        subst hc hst hd
        have hopen : ¬ gateClosed (iterate env c s) := by
          rw [gateClosed_iterate env c s h.1, hb]
          decide
        cases rest with
        | nil => simp at hnext
        | cons n rest1 =>
          simp only [List.get?_cons_zero, Option.some.injEq] at hnext
          subst hnext
          rcases first_runs env (i + 1) n rest1 _ hopen hp hf with ⟨a1, b1, st1, hm⟩ | ⟨a1, b1, hm⟩
          · exact Or.inl ⟨a1, b1, st1,
              List.mem_cons_of_mem _ (List.mem_cons_of_mem _ hm)⟩
          · exact Or.inr ⟨a1, b1, List.mem_cons_of_mem _ (List.mem_cons_of_mem _ hm)⟩
      · have hge := run_loop_index_ge env rest (i + 1) _ _ he
        simp only [Event.index] at hge
        obtain ⟨d1, hd1⟩ : ∃ d1, d = d1 + 1 := ⟨d - 1, by omega⟩
        subst hd1
        have e1 : i + (d1 + 1) = i + 1 + d1 := by omega
        rw [e1] at he hp hf ⊢
        rcases ih (i + 1) _ d1 c a b st next he hb hnext hp hf with
          ⟨a1, b1, st1, hm⟩ | ⟨a1, b1, hm⟩
        · exact Or.inl ⟨a1, b1, st1,
            List.mem_cons_of_mem _ (List.mem_cons_of_mem _ hm)⟩
        · exact Or.inr ⟨a1, b1, List.mem_cons_of_mem _ (List.mem_cons_of_mem _ hm)⟩

/-- With every chain mode `always`, no failure of `pipe()` or `fork()` and no child that
blocks for ever, the loop started with an open gate executes every position. -/
theorem all_always_aux (env : Env) (hpipe : ∀ j, env.pipeFails j = false)
    (hfork : ∀ j, env.forkFails j = false) (cs : List shell_command) :
    ∀ (i : Nat) (s : ExecState), ¬ gateClosed s →
      (∀ c ∈ cs, c.next_mode = next_command_mode.always) →
      (run_loop env i cs s).blocked = false →
      executed (run_loop env i cs s).events = List.range' i cs.length := by
  induction cs with
  | nil =>
    intro i s _ _ _
    simp [run_loop_nil, executed]
  | cons c rest ih =>
    intro i s hs hall hnb
    by_cases hb : (forked env c s).blocked = true
    · rw [run_loop_hung env i c rest s hs (hpipe i) (hfork i) hb] at hnb
      simp at hnb
    · have hb1 : (forked env c s).blocked = false := by simpa using hb
      rw [run_loop_step env i c rest s hs (hpipe i) (hfork i) hb1] at hnb ⊢
      have hc : c.next_mode = next_command_mode.always := hall c (List.mem_cons_self c rest)
      have hopen : ¬ gateClosed (iterate env c s) := by
        rw [gateClosed_iterate env c s hs, hc]
        simp [chainBroken]
      have hrest := ih (i + 1) (iterate env c s) hopen
        (fun x hx => hall x (List.mem_cons_of_mem c hx)) hnb
      simp only [executed_step, hrest, List.length_cons, List.range'_succ]

theorem initial_open (k : Kernel) (fds : FdTable) : ¬ gateClosed (initial k fds) := by
  simp [gateClosed, initial]

/-- A child whose program resolves blocks for ever as soon as its output does not fit
into the pipe its standard output refers to. -/
theorem child_blocked_of_overflow (env : Env) (c : shell_command) (pipeIn pipes0 pipes1 : Nat)
    (k : Kernel) (t : FdTable) (prog : Program) (id : Nat) (o : Bytes)
    (hprog : env.programs c.cmd = some prog)
    (hout : fdGet (child_redirect c pipeIn pipes0 pipes1 k.fs t).2 STDOUT_FILENO =
      some (Target.pipeWrite id))
    (ho : ∀ inp ends fs, (prog (c.cmd :: c.args) inp ends fs).out = o)
    (hcap : env.pipeCapacity < (k.pipes.getD id []).length + o.length) :
    (child env c pipeIn pipes0 pipes1 k t).blocked = true := by
  unfold child
  simp only [hprog, hout, ho, writeBlocks]
  rw [Bool.or_eq_true]
  exact Or.inr (decide_eq_true hcap)

/-- C2 as stated fails: in `head -c 65537 /dev/zero | cat` both chain modes are `always`
and no `pipe()` or `fork()` fails, the first command is executed, yet no process is ever
spawned for `cat`: the 65537 bytes do not fit into the pipe (65536 bytes), the reader is
forked only after `wait` has returned for the writer, so the writer blocks for ever and
the executor stays in `wait`. -/
theorem chain_proceed_rule_counterexample :
    (∀ j, demoEnv.pipeFails j = false) ∧ (∀ j, demoEnv.forkFails j = false) ∧
    (∀ c ∈ floodPipeline, c.next_mode = next_command_mode.always) ∧
    (execute_commands demoEnv { fs := emptyFs, pipes := [], tty := [] } stdFds
      floodPipeline).events =
      [Event.piped 0 0 3 4,
       Event.hung 0 { plain "head" ["-c", "65537", "/dev/zero"] next_command_mode.always with
          cout_mode := ostream_mode.pipe } (some Target.tty) (some (Target.pipeWrite 0))] ∧
    (execute_commands demoEnv { fs := emptyFs, pipes := [], tty := [] } stdFds
      floodPipeline).blocked = true ∧
    executed (execute_commands demoEnv { fs := emptyFs, pipes := [], tty := [] } stdFds
      floodPipeline).events = [0] ∧
    executed (execute_commands demoEnv { fs := emptyFs, pipes := [], tty := [] } stdFds
      floodPipeline).events ≠ List.range floodPipeline.length := by
  have hb : (forked demoEnv { plain "head" ["-c", "65537", "/dev/zero"]
      next_command_mode.always with cout_mode := ostream_mode.pipe }
      (initial { fs := emptyFs, pipes := [], tty := [] } stdFds)).blocked = true := by
    unfold forked
    apply child_blocked_of_overflow demoEnv _ _ _ _ _ _ head_prog 0
      (List.replicate 65537 (Char.ofNat 0))
    · simp [demoEnv, plain]
    · decide
    · intro inp ends fs
      rfl
    · rw [List.length_replicate]
      decide
  have hrun : execute_commands demoEnv { fs := emptyFs, pipes := [], tty := [] } stdFds
      floodPipeline = _ :=
    run_loop_hung demoEnv 0 _ _ _ (initial_open _ _) rfl rfl hb
  refine ⟨fun _ => rfl, fun _ => rfl, by decide, ?_, ?_, ?_, ?_⟩
  · rw [hrun]
    decide
  · rw [hrun]
  · rw [hrun]
    rfl
  · rw [hrun]
    decide

/-- C2 amended, chain proceed rule: when no `pipe()` and no `fork()` fails, for every
position `i > 0`, if the command at `i - 1` was executed, its child ended so that `wait`
returned its status, and its break condition does not hold (its chain mode is `always`, or
`on_success` with wait status zero, or `on_fail` with wait status non-zero), a process is
spawned for the command at position `i`, whatever happened earlier; and when every chain
mode is `always` and the executor is not left blocked by a child that never ends, every
position of the sequence is executed. -/
theorem chain_proceed_rule (env : Env) (k : Kernel) (fds : FdTable) (cmds : List shell_command)
    (hpipe : ∀ j, env.pipeFails j = false) (hfork : ∀ j, env.forkFails j = false) :
    (∀ (i : Nat) (c next : shell_command) (cin cout : Option Target) (st : Nat), 0 < i →
      Event.spawned (i - 1) c cin cout st ∈ (execute_commands env k fds cmds).events →
      (c.next_mode = next_command_mode.always ∨
        (c.next_mode = next_command_mode.on_success ∧ st = 0) ∨
        (c.next_mode = next_command_mode.on_fail ∧ st ≠ 0)) →
      cmds.get? i = some next →
      (∃ cin1 cout1 st1,
        Event.spawned i next cin1 cout1 st1 ∈ (execute_commands env k fds cmds).events) ∨
      (∃ cin1 cout1,
        Event.hung i next cin1 cout1 ∈ (execute_commands env k fds cmds).events)) ∧
    ((∀ c ∈ cmds, c.next_mode = next_command_mode.always) →
      (execute_commands env k fds cmds).blocked = false →
      executed (execute_commands env k fds cmds).events = List.range cmds.length) := by
  constructor
  · intro i c next cin cout st hi hexec hmode hnext
    unfold execute_commands at hexec ⊢
    obtain ⟨d, hd⟩ : ∃ d, i = d + 1 := ⟨i - 1, by omega⟩
    subst hd
    have hb : chainBroken c.next_mode st = false := by
      rcases hmode with h | h | h
      · simp [chainBroken, h]
      · simp [chainBroken, h.1, h.2]
      · simp [chainBroken, h.1, h.2]
    have e0 : d + 1 - 1 = 0 + d := by omega
    rw [e0] at hexec
    have h := proceed_aux env cmds 0 _ d c cin cout st next hexec hb hnext
      (hpipe _) (hfork _)
    simpa using h
  · intro hall hnb
    unfold execute_commands at hnb ⊢
    rw [all_always_aux env hpipe hfork cmds 0 _ (initial_open k fds) hall hnb,
      List.range_eq_range']

/-- C2 amended at `false ; echo x` (both `always`): no child blocks and both positions are
executed although `false` exits non-zero. -/
theorem chain_proceed_rule_witness :
    (execute_commands demoEnv { fs := emptyFs, pipes := [], tty := [] } stdFds
      [plain "false" [] next_command_mode.always,
       plain "echo" ["x"] next_command_mode.always]).blocked = false ∧
    executed (execute_commands demoEnv { fs := emptyFs, pipes := [], tty := [] } stdFds
      [plain "false" [] next_command_mode.always,
       plain "echo" ["x"] next_command_mode.always]).events = List.range 2 :=
  ⟨by decide,
   (chain_proceed_rule demoEnv { fs := emptyFs, pipes := [], tty := [] } stdFds
    [plain "false" [] next_command_mode.always, plain "echo" ["x"] next_command_mode.always]
    (fun _ => rfl) (fun _ => rfl)).2 (by decide) (by decide)⟩


/-! ## What the gate state does and does not influence -/

theorem forked_congr (env : Env) (c : shell_command) (s t : ExecState)
    (hk : s.kernel = t.kernel) (hf : s.fds = t.fds) (hp : s.pipeIn = t.pipeIn) :
    forked env c s = forked env c t := by
  simp only [forked, hk, hf, hp]

theorem pipedEvent_congr (i : Nat) (s t : ExecState)
    (hk : s.kernel = t.kernel) (hf : s.fds = t.fds) : pipedEvent i s = pipedEvent i t := by
  simp only [pipedEvent, hk, hf]

theorem iterate_kernel (env : Env) (c : shell_command) (s : ExecState) :
    (iterate env c s).kernel = (forked env c s).kernel := rfl

theorem iterate_pipeIn (env : Env) (c : shell_command) (s : ExecState) :
    (iterate env c s).pipeIn = (pipe s.kernel s.fds).2.2.1 := rfl

theorem iterate_fds (env : Env) (c : shell_command) (s : ExecState) :
    (iterate env c s).fds =
      if c.cout_mode ≠ ostream_mode.term then
        dup2 (pipe s.kernel s.fds).2.1 (some STDOUT_FILENO) (pipe s.kernel s.fds).2.2.2
      else (pipe s.kernel s.fds).2.1 := rfl

/-- The child never reads the chain mode of its command. -/
theorem forked_next_mode (env : Env) (c : shell_command) (m : next_command_mode)
    (s : ExecState) : forked env { c with next_mode := m } s = forked env c s := rfl

/-- Two states of the executor that differ only in the locals the gate reads, and are
either equal there too or both let the gate pass, produce the same events. -/
theorem gate_state_aux (env : Env) (cs : List shell_command) :
    ∀ (i : Nat) (s t : ExecState), s.kernel = t.kernel → s.fds = t.fds → s.pipeIn = t.pipeIn →
      ((s.previousMode = t.previousMode ∧ s.child_status = t.child_status) ∨
        (¬ gateClosed s ∧ ¬ gateClosed t)) →
      (run_loop env i cs s).events = (run_loop env i cs t).events := by
  induction cs with
  | nil =>
    intro i s t _ _ _ _
    simp [run_loop_nil]
  | cons c rest ih =>
    intro i s t hk hf hp hg
    have hiff : gateClosed s ↔ gateClosed t := by
      rcases hg with hg | hg
      · unfold gateClosed
        rw [hg.1, hg.2]
      · exact ⟨fun h => absurd h hg.1, fun h => absurd h hg.2⟩
    by_cases hs : gateClosed s
    · rw [run_loop_closed env i _ s hs, run_loop_closed env i _ t (hiff.1 hs)]
    · have ht : ¬ gateClosed t := fun h => hs (hiff.2 h)
      by_cases hpf : env.pipeFails i = true
      · rw [(run_loop_pipe_fails env i c rest s hs hpf).1,
          (run_loop_pipe_fails env i c rest t ht hpf).1]
      · have hpf1 : env.pipeFails i = false := by simpa using hpf
        by_cases hff : env.forkFails i = true
        · rw [run_loop_fork_fails env i c rest s hs hpf1 hff,
            run_loop_fork_fails env i c rest t ht hpf1 hff, pipedEvent_congr i s t hk hf]
        · have hff1 : env.forkFails i = false := by simpa using hff
          have hfk : forked env c s = forked env c t := forked_congr env c s t hk hf hp
          by_cases hbl : (forked env c s).blocked = true
          · rw [run_loop_hung env i c rest s hs hpf1 hff1 hbl,
              run_loop_hung env i c rest t ht hpf1 hff1 (hfk ▸ hbl)]
            simp only [pipedEvent_congr i s t hk hf, hungEvent, hfk]
          have hbl1 : (forked env c s).blocked = false := by simpa using hbl
          have hrest : (run_loop env (i + 1) rest (iterate env c s)).events =
              (run_loop env (i + 1) rest (iterate env c t)).events := by
            apply ih (i + 1)
            · rw [iterate_kernel, iterate_kernel, hfk]
            · rw [iterate_fds, iterate_fds, hk, hf]
            · rw [iterate_pipeIn, iterate_pipeIn, hk, hf]
            · by_cases hm : c.next_mode = next_command_mode.always
              · have h1 := (iterate_gate_fields env c s).1 hm
                have h2 := (iterate_gate_fields env c t).1 hm
                rcases hg with hg | hg
                · left
                  rw [h1.1, h1.2, h2.1, h2.2]
                  exact hg
                · right
                  unfold gateClosed at hs ht ⊢
                  rw [h1.1, h1.2, h2.1, h2.2]
                  exact ⟨hs, ht⟩
              · have h1 := (iterate_gate_fields env c s).2 hm
                have h2 := (iterate_gate_fields env c t).2 hm
                left
                rw [h1.1, h1.2, h2.1, h2.2, hfk]
                exact ⟨rfl, rfl⟩
          rw [run_loop_step env i c rest s hs hpf1 hff1 hbl1,
            run_loop_step env i c rest t ht hpf1 hff1 (hfk ▸ hbl1)]
          simp only [hrest, pipedEvent_congr i s t hk hf, spawnedEvent, hfk]


/-- C3 as stated fails: in `false && echo x` the first command's chain mode `on_success`
keeps `echo` from running, while with that mode replaced by `always` both commands run,
under the same exit statuses. -/
theorem first_chain_mode_counterexample :
    executed (execute_commands demoEnv { fs := emptyFs, pipes := [], tty := [] } stdFds
        [plain "false" [] next_command_mode.on_success,
         plain "echo" ["x"] next_command_mode.always]).events = [0] ∧
    executed (execute_commands demoEnv { fs := emptyFs, pipes := [], tty := [] } stdFds
        [{ plain "false" [] next_command_mode.on_success with
            next_mode := next_command_mode.always },
         plain "echo" ["x"] next_command_mode.always]).events = [0, 1] ∧
    executed (execute_commands demoEnv { fs := emptyFs, pipes := [], tty := [] } stdFds
        [plain "false" [] next_command_mode.on_success,
         plain "echo" ["x"] next_command_mode.always]).events ≠
      executed (execute_commands demoEnv { fs := emptyFs, pipes := [], tty := [] } stdFds
        [{ plain "false" [] next_command_mode.on_success with
            next_mode := next_command_mode.always },
         plain "echo" ["x"] next_command_mode.always]).events := by
  decide

/-- C3 amended: the first command's chain mode never decides whether the first command
itself is executed (the gate before it is open as under `always`, so a process is spawned
for it, one that is waited for or one that blocks for ever, whenever its `pipe()` and
`fork()` succeed); it gates what follows: replacing it by `always` leaves the
executed positions unchanged provided the first command does not raise the break condition
(`on_success` with non-zero wait status, or `on_fail` with wait status zero). -/
theorem first_chain_mode (env : Env) (k : Kernel) (fds : FdTable) (c : shell_command)
    (rest : List shell_command) :
    (env.pipeFails 0 = false → env.forkFails 0 = false →
      (∃ cin cout st,
        Event.spawned 0 c cin cout st ∈ (execute_commands env k fds (c :: rest)).events) ∨
      (∃ cin cout,
        Event.hung 0 c cin cout ∈ (execute_commands env k fds (c :: rest)).events)) ∧
    ((∀ cin cout st,
        Event.spawned 0 c cin cout st ∈ (execute_commands env k fds (c :: rest)).events →
        ¬ ((c.next_mode = next_command_mode.on_success ∧ st ≠ 0) ∨
          (c.next_mode = next_command_mode.on_fail ∧ st = 0))) →
      executed (execute_commands env k fds (c :: rest)).events =
        executed (execute_commands env k fds
          ({ c with next_mode := next_command_mode.always } :: rest)).events) := by
  have h0 := initial_open k fds
  constructor
  · intro hp hf
    unfold execute_commands
    exact first_runs env 0 c rest _ h0 hp hf
  · intro hok
    unfold execute_commands at hok ⊢
    by_cases hpf : env.pipeFails 0 = true
    · rw [(run_loop_pipe_fails env 0 c rest _ h0 hpf).1,
        (run_loop_pipe_fails env 0 _ rest _ h0 hpf).1]
    · have hpf1 : env.pipeFails 0 = false := by simpa using hpf
      by_cases hff : env.forkFails 0 = true
      · rw [run_loop_fork_fails env 0 c rest _ h0 hpf1 hff,
          run_loop_fork_fails env 0 _ rest _ h0 hpf1 hff]
      · have hff1 : env.forkFails 0 = false := by simpa using hff
        by_cases hbl : (forked env c (initial k fds)).blocked = true
        · have hbl2 : (forked env { c with next_mode := next_command_mode.always }
              (initial k fds)).blocked = true := hbl
          rw [run_loop_hung env 0 c rest _ h0 hpf1 hff1 hbl,
            run_loop_hung env 0 _ rest _ h0 hpf1 hff1 hbl2]
          rfl
        have hbl1 : (forked env c (initial k fds)).blocked = false := by simpa using hbl
        have hbl3 : (forked env { c with next_mode := next_command_mode.always }
            (initial k fds)).blocked = false := hbl1
        rw [run_loop_step env 0 c rest _ h0 hpf1 hff1 hbl1] at hok
        have hb : chainBroken c.next_mode
            (waitStatus (forked env c (initial k fds)).ending) = false := by
          have h1 := hok _ _ _ (List.mem_cons_of_mem _ (List.mem_cons_self _ _))
          rw [not_or] at h1
          cases hm : c.next_mode with
          | always => simp [chainBroken]
          | on_success =>
            have h2 := h1.1
            rw [hm] at h2
            simpa [chainBroken] using h2
          | on_fail =>
            have h2 := h1.2
            rw [hm] at h2
            simpa [chainBroken] using h2
        have hopen1 : ¬ gateClosed (iterate env c (initial k fds)) := by
          rw [gateClosed_iterate env c _ h0, hb]
          decide
        have hopen2 : ¬ gateClosed
            (iterate env { c with next_mode := next_command_mode.always } (initial k fds)) := by
          rw [gateClosed_iterate env _ _ h0]
          simp [chainBroken]
        have htail := gate_state_aux env rest 1 (iterate env c (initial k fds))
          (iterate env { c with next_mode := next_command_mode.always } (initial k fds))
          rfl rfl rfl (Or.inr ⟨hopen1, hopen2⟩)
        rw [run_loop_step env 0 c rest _ h0 hpf1 hff1 hbl1,
          run_loop_step env 0 _ rest _ h0 hpf1 hff1 hbl3]
        simp only [executed_step]
        rw [htail]

/-- C3 amended at `true && echo x`: `true` exits zero, so the executed positions are
those of `true ; echo x`. -/
theorem first_chain_mode_witness :
    executed (execute_commands demoEnv { fs := emptyFs, pipes := [], tty := [] } stdFds
        [plain "true" [] next_command_mode.on_success,
         plain "echo" ["x"] next_command_mode.always]).events =
      executed (execute_commands demoEnv { fs := emptyFs, pipes := [], tty := [] } stdFds
        [{ plain "true" [] next_command_mode.on_success with
            next_mode := next_command_mode.always },
         plain "echo" ["x"] next_command_mode.always]).events :=
  (first_chain_mode demoEnv { fs := emptyFs, pipes := [], tty := [] } stdFds
    (plain "true" [] next_command_mode.on_success)
    [plain "echo" ["x"] next_command_mode.always]).2 (by
      intro cin cout st h
      have hev : (execute_commands demoEnv { fs := emptyFs, pipes := [], tty := [] } stdFds
          [plain "true" [] next_command_mode.on_success,
           plain "echo" ["x"] next_command_mode.always]).events =
          [Event.piped 0 0 3 4,
           Event.spawned 0 (plain "true" [] next_command_mode.on_success) (some Target.tty)
             (some Target.tty) 0,
           Event.piped 1 1 5 6,
           Event.spawned 1 (plain "echo" ["x"] next_command_mode.always) (some Target.tty)
             (some Target.tty) 0] := by decide
      rw [hev] at h
      simp at h
      obtain ⟨_, _, hst⟩ := h
      subst hst
      simp [plain])


/-! ## A program that cannot be exec'd -/

/-- The executor process exits only when `pipe()` or `fork()` fails. -/
theorem no_exit_aux (env : Env) (hpipe : ∀ j, env.pipeFails j = false)
    (hfork : ∀ j, env.forkFails j = false) (cs : List shell_command) :
    ∀ (i : Nat) (s : ExecState), (run_loop env i cs s).exitCode = none := by
  induction cs with
  | nil =>
    intro i s
    simp [run_loop_nil]
  | cons c rest ih =>
    intro i s
    by_cases hs : gateClosed s
    · rw [run_loop_closed env i _ s hs]
    · by_cases hb : (forked env c s).blocked = true
      · rw [run_loop_hung env i c rest s hs (hpipe i) (hfork i) hb]
      · have hb1 : (forked env c s).blocked = false := by simpa using hb
        rw [run_loop_step env i c rest s hs (hpipe i) (hfork i) hb1]
        exact ih (i + 1) _

/-- C4 at its failing input: with `out.txt` holding `hello\n`, the sequence
`echo hi > out.txt ; cat out.txt` leaves `hi\nlo\n` in the file and on the terminal: the
`open` of line 125 has no `O_TRUNC`, so the old content beyond the three bytes written
survives; the append mode of line 118 does keep the old content in front of the output. -/
theorem truncate_mode_keeps_old_tail :
    (execute_commands demoEnv { fs := demoFs "hello\n".toList, pipes := [], tty := [] } stdFds
      [{ plain "echo" ["hi"] next_command_mode.always with
          cout_file := "out.txt", cout_mode := ostream_mode.file },
       plain "cat" ["out.txt"] next_command_mode.always]).final.kernel.fs "out.txt" =
      Node.regular "hi\nlo\n".toList true true ∧
    (execute_commands demoEnv { fs := demoFs "hello\n".toList, pipes := [], tty := [] } stdFds
      [{ plain "echo" ["hi"] next_command_mode.always with
          cout_file := "out.txt", cout_mode := ostream_mode.file },
       plain "cat" ["out.txt"] next_command_mode.always]).final.kernel.tty =
      "hi\nlo\n".toList ∧
    (execute_commands demoEnv { fs := demoFs "hello\n".toList, pipes := [], tty := [] } stdFds
      [{ plain "echo" ["hi"] next_command_mode.always with
          cout_file := "out.txt", cout_mode := ostream_mode.append }]).final.kernel.fs "out.txt" =
      Node.regular "hello\nhi\n".toList true true := by
  decide

/-- C5 at its failing input: with no file `new.txt`, `echo hi >> new.txt` creates nothing
(the `open` of line 118 has no `O_CREAT` and fails), the child keeps the inherited standard
output and `hi\n` goes to the terminal; the truncate mode of line 125 does create the file
and it then holds exactly `hi\n`. -/
theorem append_mode_does_not_create :
    (execute_commands demoEnv { fs := emptyFs, pipes := [], tty := [] } stdFds
      [{ plain "echo" ["hi"] next_command_mode.always with
          cout_file := "new.txt", cout_mode := ostream_mode.append }]).final.kernel.fs "new.txt" =
      Node.missing true ∧
    (execute_commands demoEnv { fs := emptyFs, pipes := [], tty := [] } stdFds
      [{ plain "echo" ["hi"] next_command_mode.always with
          cout_file := "new.txt", cout_mode := ostream_mode.append }]).final.kernel.tty =
      "hi\n".toList ∧
    executed (execute_commands demoEnv { fs := emptyFs, pipes := [], tty := [] } stdFds
      [{ plain "echo" ["hi"] next_command_mode.always with
          cout_file := "new.txt", cout_mode := ostream_mode.append }]).events = [0] ∧
    (execute_commands demoEnv { fs := emptyFs, pipes := [], tty := [] } stdFds
      [{ plain "echo" ["hi"] next_command_mode.always with
          cout_file := "new.txt", cout_mode := ostream_mode.file }]).final.kernel.fs "new.txt" =
      Node.regular "hi\n".toList true true := by
  decide

/-- A redirection whose `open` fails leaves the file system and the child's descriptor
table as they were. -/
theorem redirect_file_of_open_fails (fs : String → Node) (t : FdTable) (path : String)
    (flags mode target : Nat) (h : (sys_open fs t path flags mode).2.2 = none) :
    redirect_file fs t path flags mode target = (fs, t) := by
  have h1 : (sys_open fs t path flags mode).1 = fs ∧ (sys_open fs t path flags mode).2.1 = t := by
    unfold sys_open at h ⊢
    cases hn : fs path with
    | regular data r w =>
      simp only [hn] at h ⊢
      split_ifs at h ⊢
      simp_all
    | missing creatable =>
      simp only [hn] at h ⊢
      split_ifs at h ⊢
      simp_all
  unfold redirect_file
  simp only [h, dup2, close]
  exact Prod.ext h1.1 h1.2

/-- C6 as stated fails: in an empty file system `true < missing.txt` cannot open its
input file, and `echo hi >> missing.txt` cannot open its output file, yet each child's
wait status is zero. -/
theorem open_failure_counterexample :
    (sys_open emptyFs (pipe { fs := emptyFs, pipes := [], tty := [] } stdFds).2.1
      "missing.txt" O_RDONLY 0).2.2 = none ∧
    (execute_commands demoEnv { fs := emptyFs, pipes := [], tty := [] } stdFds
      [{ plain "true" [] next_command_mode.on_success with
          cin_file := "missing.txt", cin_mode := istream_mode.file }]).events =
      [Event.piped 0 0 3 4,
       Event.spawned 0 { plain "true" [] next_command_mode.on_success with
          cin_file := "missing.txt", cin_mode := istream_mode.file }
         (some Target.tty) (some Target.tty) 0] ∧
    (sys_open emptyFs (pipe { fs := emptyFs, pipes := [], tty := [] } stdFds).2.1
      "missing.txt" (O_APPEND ||| O_WRONLY) 0).2.2 = none ∧
    (execute_commands demoEnv { fs := emptyFs, pipes := [], tty := [] } stdFds
      [{ plain "echo" ["hi"] next_command_mode.on_success with
          cout_file := "missing.txt", cout_mode := ostream_mode.append }]).events =
      [Event.piped 0 0 3 4,
       Event.spawned 0 { plain "echo" ["hi"] next_command_mode.on_success with
          cout_file := "missing.txt", cout_mode := ostream_mode.append }
         (some Target.tty) (some Target.tty) 0] := by
  decide

/-- C6 amended: a redirection target that cannot be opened does not fail the child. When
the `open` of an output file (append or truncate mode) fails, the child runs exactly as the
child of the same command with output mode `term`; when the `open` of the input file fails,
it runs exactly as the child of the same command with input mode `term`: the program is
exec'd on the inherited stream and the wait status is the program's own. The executor
itself exits only when `pipe()` or `fork()` fails. -/
theorem failed_redirect_is_skipped (env : Env) (command : shell_command)
    (pipeIn pipes0 pipes1 : Nat) (k : Kernel) (t : FdTable) :
    (command.cout_mode = ostream_mode.append →
      (sys_open k.fs t command.cout_file (O_APPEND ||| O_WRONLY) 0).2.2 = none →
      child env command pipeIn pipes0 pipes1 k t =
        child env { command with cout_mode := ostream_mode.term } pipeIn pipes0 pipes1 k t) ∧
    (command.cout_mode = ostream_mode.file →
      (sys_open k.fs t command.cout_file (O_CREAT ||| O_RDWR) 438).2.2 = none →
      child env command pipeIn pipes0 pipes1 k t =
        child env { command with cout_mode := ostream_mode.term } pipeIn pipes0 pipes1 k t) ∧
    (command.cin_mode = istream_mode.file →
      (sys_open (child_redirect_out command k.fs t).1 (child_redirect_out command k.fs t).2
        command.cin_file O_RDONLY 0).2.2 = none →
      child env command pipeIn pipes0 pipes1 k t =
        child env { command with cin_mode := istream_mode.term } pipeIn pipes0 pipes1 k t) ∧
    (∀ (fds : FdTable) (cmds : List shell_command),
      (∀ j, env.pipeFails j = false) → (∀ j, env.forkFails j = false) →
      (execute_commands env k fds cmds).exitCode = none) := by
  refine ⟨?_, ?_, ?_, ?_⟩
  · intro hm hopen
    have hr : child_redirect command pipeIn pipes0 pipes1 k.fs t =
        child_redirect { command with cout_mode := ostream_mode.term } pipeIn pipes0 pipes1
          k.fs t := by
      simp [child_redirect, child_redirect_out, hm, redirect_file_of_open_fails _ _ _ _ _ _ hopen]
    simp only [child, hr]
  · intro hm hopen
    have hr : child_redirect command pipeIn pipes0 pipes1 k.fs t =
        child_redirect { command with cout_mode := ostream_mode.term } pipeIn pipes0 pipes1
          k.fs t := by
      simp [child_redirect, child_redirect_out, hm, redirect_file_of_open_fails _ _ _ _ _ _ hopen]
    simp only [child, hr]
  · intro hm hopen
    have hr : child_redirect command pipeIn pipes0 pipes1 k.fs t =
        child_redirect { command with cin_mode := istream_mode.term } pipeIn pipes0 pipes1
          k.fs t := by
      have ho : child_redirect_out { command with cin_mode := istream_mode.term } k.fs t =
          child_redirect_out command k.fs t := rfl
      simp [child_redirect, ho, hm, redirect_file_of_open_fails _ _ _ _ _ _ hopen]
    simp only [child, hr]
  · intro fds cmds hpipe hfork
    exact no_exit_aux env hpipe hfork cmds 0 _

/-- C6 amended at `true < missing.txt`: the child is the child of plain `true`. -/
theorem failed_redirect_is_skipped_witness :
    child demoEnv { plain "true" [] next_command_mode.on_success with
        cin_file := "missing.txt", cin_mode := istream_mode.file } 0 3 4
        { fs := emptyFs, pipes := [[]], tty := [] }
        (pipe { fs := emptyFs, pipes := [], tty := [] } stdFds).2.1 =
      child demoEnv { plain "true" [] next_command_mode.on_success with
        cin_file := "missing.txt", cin_mode := istream_mode.term } 0 3 4
        { fs := emptyFs, pipes := [[]], tty := [] }
        (pipe { fs := emptyFs, pipes := [], tty := [] } stdFds).2.1 :=
  (failed_redirect_is_skipped demoEnv { plain "true" [] next_command_mode.on_success with
      cin_file := "missing.txt", cin_mode := istream_mode.file } 0 3 4
    { fs := emptyFs, pipes := [[]], tty := [] }
    (pipe { fs := emptyFs, pipes := [], tty := [] } stdFds).2.1).2.2.1 rfl (by decide)


/-! ## Descriptors of the executor process -/

/-- C9 at its failing input: after the pipe sequence `echo a b | cat | cat` the executor
returns with descriptors 3 to 8 still open on top of the three it started with: the read end
of each of the three pipes, two numbers re-pointed at the terminal by the `dup2` of line 178,
and the write end of the last pipe. The parent branch never calls `close`. -/
theorem parent_leaks_pipe_descriptors :
    openFds stdFds = [0, 1, 2] ∧
    (execute_commands demoEnv { fs := emptyFs, pipes := [], tty := [] } stdFds
      pipeline).exitCode = none ∧
    openFds (execute_commands demoEnv { fs := emptyFs, pipes := [], tty := [] } stdFds
      pipeline).final.fds = [0, 1, 2, 3, 4, 5, 6, 7, 8] ∧
    (execute_commands demoEnv { fs := emptyFs, pipes := [], tty := [] } stdFds
      pipeline).final.fds =
      [some Target.tty, some Target.tty, some Target.tty,
       some (Target.pipeRead 0), some Target.tty,
       some (Target.pipeRead 1), some Target.tty,
       some (Target.pipeRead 2), some (Target.pipeWrite 2)] := by
  decide

/-! ## Status bookkeeping -/

/-- C10 as stated fails: after `true && false` (the second command with chain mode
`always`) the whole sequence has run and the last child's wait status is 256, but the
recorded previous mode is still `on_success` and the recorded previous status still 0. -/
theorem status_bookkeeping_counterexample :
    (execute_commands demoEnv { fs := emptyFs, pipes := [], tty := [] } stdFds
      [plain "true" [] next_command_mode.on_success,
       plain "false" [] next_command_mode.always]).events.getLast? =
      some (Event.spawned 1 (plain "false" [] next_command_mode.always) (some Target.tty)
        (some Target.tty) 256) ∧
    (execute_commands demoEnv { fs := emptyFs, pipes := [], tty := [] } stdFds
      [plain "true" [] next_command_mode.on_success,
       plain "false" [] next_command_mode.always]).final.previousMode =
      next_command_mode.on_success ∧
    (execute_commands demoEnv { fs := emptyFs, pipes := [], tty := [] } stdFds
      [plain "true" [] next_command_mode.on_success,
       plain "false" [] next_command_mode.always]).final.previousMode ≠
      (plain "false" [] next_command_mode.always).next_mode ∧
    (execute_commands demoEnv { fs := emptyFs, pipes := [], tty := [] } stdFds
      [plain "true" [] next_command_mode.on_success,
       plain "false" [] next_command_mode.always]).final.child_status = 0 ∧
    (execute_commands demoEnv { fs := emptyFs, pipes := [], tty := [] } stdFds
      [plain "true" [] next_command_mode.on_success,
       plain "false" [] next_command_mode.always]).final.child_status ≠ 256 := by
  decide

theorem iterate_status (env : Env) (c : shell_command) (s : ExecState) :
    (iterate env c s).status = waitStatus (forked env c s).ending := rfl

/-- A loop that produces no event leaves the local `status` as it was. -/
theorem final_status_of_no_event (env : Env) (i : Nat) (cs : List shell_command)
    (s : ExecState) (h : (run_loop env i cs s).events = []) :
    (run_loop env i cs s).final.status = s.status := by
  cases cs with
  | nil => simp [run_loop_nil]
  | cons c rest =>
    by_cases hs : gateClosed s
    · rw [run_loop_closed env i _ s hs]
    · by_cases hpf : env.pipeFails i = true
      · exact (run_loop_pipe_fails env i c rest s hs hpf).2
      · have hpf1 : env.pipeFails i = false := by simpa using hpf
        by_cases hff : env.forkFails i = true
        · rw [run_loop_fork_fails env i c rest s hs hpf1 hff] at h
          simp at h
        · have hff1 : env.forkFails i = false := by simpa using hff
          by_cases hb : (forked env c s).blocked = true
          · rw [run_loop_hung env i c rest s hs hpf1 hff1 hb] at h
            simp at h
          · have hb1 : (forked env c s).blocked = false := by simpa using hb
            rw [run_loop_step env i c rest s hs hpf1 hff1 hb1] at h
            simp at h

/-- When the last event of the loop is a spawn, the local `status` at the end is the wait
status of that child. -/
theorem final_status_aux (env : Env) (cs : List shell_command) :
    ∀ (i : Nat) (s : ExecState) (j : Nat) (c : shell_command) (a b : Option Target) (st : Nat),
      (run_loop env i cs s).events.getLast? = some (Event.spawned j c a b st) →
      (run_loop env i cs s).final.status = st := by
  induction cs with
  | nil =>
    intro i s j c a b st he
    simp [run_loop_nil] at he
  | cons c0 rest ih =>
    intro i s j c a b st he
    rcases run_loop_cases env i c0 rest s with h | h | h | h
    · rw [h] at he
      simp at he
    · rw [h.1] at he
      simp [pipedEvent] at he
    · rw [h.1] at he
      simp [pipedEvent, hungEvent] at he
    · rw [h.2.2.2] at he ⊢
      simp only at he ⊢
      cases htail : (run_loop env (i + 1) rest (iterate env c0 s)).events with
      | nil =>
        rw [htail] at he
        simp [spawnedEvent] at he
        rw [final_status_of_no_event env (i + 1) rest _ htail, iterate_status]
        exact he.2.2.2.2
      | cons e es =>
        rw [htail] at he
        have he1 : (run_loop env (i + 1) rest (iterate env c0 s)).events.getLast? =
            some (Event.spawned j c a b st) := by
          rw [htail]
          simpa [List.getLast?_cons_cons] using he
        exact ih (i + 1) _ j c a b st he1

/-- C10 amended: after the iteration for an executed command the local `status` holds the
child's wait status; `previousMode` and `child_status` are set to the command's chain mode
and that status only when the chain mode is `on_success` or `on_fail`, and keep their
earlier values when it is `always`. When the loop ends with a spawned child as its last
event, it is `status` that holds the wait status of the last command executed. -/
theorem status_bookkeeping (env : Env) (k : Kernel) (fds : FdTable)
    (cmds : List shell_command) (c : shell_command) (s : ExecState) :
    (iterate env c s).status = waitStatus (forked env c s).ending ∧
    (c.next_mode ≠ next_command_mode.always →
      (iterate env c s).previousMode = c.next_mode ∧
      (iterate env c s).child_status = waitStatus (forked env c s).ending) ∧
    (c.next_mode = next_command_mode.always →
      (iterate env c s).previousMode = s.previousMode ∧
      (iterate env c s).child_status = s.child_status) ∧
    (∀ (j : Nat) (c1 : shell_command) (cin cout : Option Target) (st : Nat),
      (execute_commands env k fds cmds).events.getLast? = some (Event.spawned j c1 cin cout st) →
      (execute_commands env k fds cmds).final.status = st) :=
  ⟨rfl, (iterate_gate_fields env c s).2, (iterate_gate_fields env c s).1,
    fun j c1 cin cout st h => final_status_aux env cmds 0 _ j c1 cin cout st h⟩

/-- C10 amended at `true && false`: after the iteration for `false` (chain mode `always`)
the recorded mode and status are those left by `true`, and `status` is 256 at the end. -/
theorem status_bookkeeping_witness :
    (execute_commands demoEnv { fs := emptyFs, pipes := [], tty := [] } stdFds
      [plain "true" [] next_command_mode.on_success,
       plain "false" [] next_command_mode.always]).final.status = 256 :=
  (status_bookkeeping demoEnv { fs := emptyFs, pipes := [], tty := [] } stdFds
    [plain "true" [] next_command_mode.on_success, plain "false" [] next_command_mode.always]
    (plain "false" [] next_command_mode.always)
    (initial { fs := emptyFs, pipes := [], tty := [] } stdFds)).2.2.2 1
      (plain "false" [] next_command_mode.always) (some Target.tty) (some Target.tty) 256
      (by decide)


/-! ## Pipe wiring -/

end UnixCShell
